import Mathlib

/-!
# Compiled object filters (`src/compile.cpp`)

A shallow embedding of the filter compiler of `compile.cpp`: the entity
accessors of `namespace detail`, the expression tree handed to the compiler,
the expression nodes the compiler builds through the JIT expression factory
(`m_expression`), and the lowering functions of `CompiledFilter`.

Conventions of the embedding.

* C strings (`const char*`, NUL-terminated) are Lean strings; a null
  `const char*` is `none`.
* `std::int64_t` values are integers; the conversion `int64_t(x)` is the
  explicit wrap `int64_t` below.
* A function pointer is an `Option` of a Lean function, the null pointer being
  `none`.
* `assert(c)` is a check that aborts the compilation when `c` is false
  (the build with assertions enabled): `compile` returns `Except.error`.
* Evaluating a built expression on an entity returns `Option Bool`; `none`
  is a run that does not return (a call through a null function pointer).
-/

namespace OsmiumFilter

/-! ## Entities (`osmium::OSMObject`) -/

/-- Entity kinds, the values of `osmium::item_type` an `OSMObject` of the
filter can have. -/
inductive item_type where
  | node
  | way
  | relation
  deriving DecidableEq, Repr

/-- Integer code of an item type, the value of `int(t)`. -/
def item_type.toInt : item_type → Int
  | .node => 1
  | .way => 2
  | .relation => 3

/-- One tag of an entity: a key and a value, both C strings. -/
structure Tag where
  key : String
  value : String
  deriving DecidableEq, Repr

/-- An OSM entity as the accessors read it. `nodes` is the node list read by
`static_cast<const osmium::Way&>(object).nodes()` and `members` the member
list read by `static_cast<const osmium::Relation&>(object).members()`; the
accessors read them only behind the type guard. -/
structure OSMObject where
  type : item_type
  id : Int
  uid : Nat
  version : Nat
  changeset : Nat
  tags : List Tag
  nodes : List Int
  members : List Int
  deriving Repr

/-- Conversion to `std::int64_t`: the value modulo `2^64`, read as signed. -/
def int64_t (n : Int) : Int :=
  (n + 2 ^ 63) % 2 ^ 64 - 2 ^ 63

/-- Character-by-character comparison loop of `std::strcmp`: the sign of the
first difference, zero when both strings end together. -/
def strcmp_chars : List Char → List Char → Int
  | [], [] => 0
  | [], _ :: _ => -1
  | _ :: _, [] => 1
  | a :: as, b :: bs =>
    if a = b then strcmp_chars as bs
    else if a.toNat < b.toNat then -1 else 1

/-- Three-way comparison `std::strcmp(a, b)`. -/
def strcmp (a b : String) : Int :=
  strcmp_chars a.data b.data

/-- Lookup `tags().get_value_by_key(key)`: the value of the first tag whose key
compares equal to `key`, the null pointer (`none`) when there is none. -/
def get_value_by_key (tags : List Tag) (key : String) : Option String :=
  (tags.find? (fun t => strcmp t.key key == 0)).map (fun t => t.value)

/-- Membership test `tags().has_key(key)`: some tag has the key `key`. -/
def TagList_has_key (tags : List Tag) (key : String) : Bool :=
  tags.any (fun t => strcmp t.key key == 0)

/-- A parsed regular expression (`std::regex`), known through the one
operation the filter uses on it: searching a string for a match. -/
structure Regex where
  search : String → Bool

/-- Search `std::regex_search(s, r)`. -/
def regex_search (s : String) (r : Regex) : Bool :=
  r.search s

/-! ## Accessors (`namespace detail`) -/

namespace detail

/-- Accessor `detail::get_type`. -/
def get_type (object : OSMObject) : Int :=
  object.type.toInt

/-- Accessor `detail::get_id`. -/
def get_id (object : OSMObject) : Int :=
  int64_t object.id

/-- Accessor `detail::get_uid`. -/
def get_uid (object : OSMObject) : Int :=
  int64_t object.uid

/-- Accessor `detail::get_version`. -/
def get_version (object : OSMObject) : Int :=
  int64_t object.version

/-- Accessor `detail::get_changeset`. -/
def get_changeset (object : OSMObject) : Int :=
  int64_t object.changeset

/-- Accessor `detail::get_count_tags`. -/
def get_count_tags (object : OSMObject) : Int :=
  int64_t object.tags.length

/-- Accessor `detail::get_count_nodes`: zero unless the entity is a way. -/
def get_count_nodes (object : OSMObject) : Int :=
  if object.type ≠ item_type.way then 0
  else int64_t object.nodes.length

/-- Accessor `detail::get_count_members`: zero unless the entity is a
relation. -/
def get_count_members (object : OSMObject) : Int :=
  if object.type ≠ item_type.relation then 0
  else int64_t object.members.length

/-- Accessor `detail::has_key`. -/
def has_key (object : OSMObject) (key : String) : Bool :=
  TagList_has_key object.tags key

/-- Accessor `detail::check_tag_equals`:
`tag_value && !std::strcmp(value, tag_value)`. -/
def check_tag_equals (object : OSMObject) (key value : String) : Bool :=
  match get_value_by_key object.tags key with
  | none => false
  | some tag_value => strcmp value tag_value == 0

/-- Accessor `detail::check_tag_not_equals`:
`tag_value && std::strcmp(value, tag_value)`. -/
def check_tag_not_equals (object : OSMObject) (key value : String) : Bool :=
  match get_value_by_key object.tags key with
  | none => false
  | some tag_value => strcmp value tag_value != 0

/-- Accessor `detail::check_tag_match`:
`tag_value && std::regex_search(tag_value, *value)`. -/
def check_tag_match (object : OSMObject) (key : String) (value : Regex) : Bool :=
  match get_value_by_key object.tags key with
  | none => false
  | some tag_value => regex_search tag_value value

/-- Accessor `detail::check_tag_not_match`:
`tag_value && !std::regex_search(tag_value, *value)`. -/
def check_tag_not_match (object : OSMObject) (key : String) (value : Regex) : Bool :=
  match get_value_by_key object.tags key with
  | none => false
  | some tag_value => !regex_search tag_value value

end detail

/-! ## Built expressions (the nodes made by `m_expression`)

The JIT library (NativeJIT) is not part of the repository; the nodes below
are the ones `compile.cpp` builds through `m_expression`, with the library's
meaning: `And` and `Or` are its binary operations on the two operand values
(both operands are computed, then combined; on the values 0 and 1 of a `bool`
this is the logical operation), `Compare<JCC>` compares two signed integers,
`Conditional` and `If` select one of two values, `Call` calls the function its
first operand points to on the entity parameter `GetP1()` and the given
constants. -/

/-- Condition codes used with `Compare` (`NativeJIT::JccType`). -/
inductive JccType where
  | JE
  | JNE
  | JG
  | JGE
  | JL
  | JLE
  deriving DecidableEq, Repr

/-- The signed comparison a condition code stands for. -/
def JccType.holds : JccType → Int → Int → Bool
  | .JE, a, b => a == b
  | .JNE, a, b => a != b
  | .JG, a, b => decide (a > b)
  | .JGE, a, b => decide (a ≥ b)
  | .JL, a, b => decide (a < b)
  | .JLE, a, b => decide (a ≤ b)

/-- Integer-valued nodes: an immediate, or `Call(func, GetP1())` with the
function-pointer immediate `func` (`none` is the null pointer). -/
inductive IntNode where
  | Immediate (value : Int)
  | Call (func : Option (OSMObject → Int))

/-- Flag node `Compare<jcc>(left, right)`. -/
structure FlagNode where
  jcc : JccType
  left : IntNode
  right : IntNode

/-- Boolean-valued nodes (`NativeJIT::Node<bool>`). The three `Call` forms
are `Call(func, GetP1(), Immediate(key))`,
`Call(func, GetP1(), Immediate(key), Immediate(value))` with a string value,
and the same with a regular-expression pointer. -/
inductive Node where
  | And (left right : Node)
  | Or (left right : Node)
  | If (cond thenValue elseValue : Node)
  | Immediate (value : Bool)
  | Conditional (cond : FlagNode) (trueValue falseValue : Node)
  | Call_key (func : Option (OSMObject → String → Bool)) (key : String)
  | Call_key_str (func : Option (OSMObject → String → String → Bool))
      (key value : String)
  | Call_key_regex (func : Option (OSMObject → String → Regex → Bool))
      (key : String) (value : Regex)

/-- Value of an integer node on the entity `p1`; `none` when the call goes
through the null pointer. -/
def IntNode.eval (p1 : OSMObject) : IntNode → Option Int
  | .Immediate value => some value
  | .Call none => none
  | .Call (some f) => some (f p1)

/-- Value of a flag node on the entity `p1`. -/
def FlagNode.eval (p1 : OSMObject) (c : FlagNode) : Option Bool := do
  let l ← c.left.eval p1
  let r ← c.right.eval p1
  pure (c.jcc.holds l r)

/-- Value of a boolean node on the entity `p1`: what the compiled function
returns, `none` when the run does not return. -/
def Node.eval (p1 : OSMObject) : Node → Option Bool
  | .And left right => do
    let l ← left.eval p1
    let r ← right.eval p1
    pure (l && r)
  | .Or left right => do
    let l ← left.eval p1
    let r ← right.eval p1
    pure (l || r)
  | .If cond thenValue elseValue => do
    let c ← cond.eval p1
    if c then thenValue.eval p1 else elseValue.eval p1
  | .Immediate value => some value
  | .Conditional cond trueValue falseValue => do
    let c ← cond.eval p1
    if c then trueValue.eval p1 else falseValue.eval p1
  | .Call_key none _ => none
  | .Call_key (some f) key => some (f p1 key)
  | .Call_key_str none _ _ => none
  | .Call_key_str (some f) key value => some (f p1 key value)
  | .Call_key_regex none _ _ => none
  | .Call_key_regex (some f) key value => some (f p1 key value)

/-! ## Expression trees (`ExprNode` of `object_filter.hpp`) -/

/-- The filter expression handed to the compiler, one constructor per
`expr_node_type` (the header declaring the classes is not part of the
sources read here; the fields are the ones `compile.cpp` reads). Operators and
attribute names are the `std::string` values returned by `oper()` and
`attr()`. -/
inductive ExprNode where
  | and_expr (children : List ExprNode)
  | or_expr (children : List ExprNode)
  | not_expr (child : ExprNode)
  | check_has_type (type : item_type)
  | check_has_key (key : String)
  | check_tag_str (key oper value : String)
  | check_tag_regex (key oper : String) (value_regex : Regex)
  | check_attr_int (attr oper : String) (value : Int)

/-! ## The compiler (`CompiledFilter`) -/

/-- Ways a compilation aborts: the two assertions of `compile.cpp`. -/
inductive CompileError where
  /-- The check `assert(e->children().size() >= 2)` of `compile_and` and
  `compile_or` failed. -/
  | assert_children_size
  /-- The check `assert(false)` closing the operator chain of
  `check_attr_int` was reached. -/
  | assert_false
  deriving DecidableEq, Repr

/-- First character `s[0]` of a `std::string`; the terminating NUL when the
string is empty. -/
def first_char (s : String) : Char :=
  s.data.headD '\x00'

/-- Node built by `CompiledFilter::compile_not` from the compiled child. -/
def compile_not (child : Node) : Node :=
  .If child (.Immediate false) (.Immediate true)

/-- Lowering `CompiledFilter::check_object_type`. -/
def check_object_type (type : item_type) : Node :=
  let func : Option (OSMObject → Int) := some detail.get_type
  let call := IntNode.Call func
  let compare : FlagNode := ⟨.JE, call, .Immediate type.toInt⟩
  .Conditional compare (.Immediate true) (.Immediate false)

/-- Lowering `CompiledFilter::check_has_key`. -/
def check_has_key (key : String) : Node :=
  let func : Option (OSMObject → String → Bool) := some detail.has_key
  .Call_key func key

/-- Lowering `CompiledFilter::check_tag_str`: the operator's first character
selects the accessor. -/
def check_tag_str (key oper value : String) : Node :=
  let func : Option (OSMObject → String → String → Bool) :=
    some (if first_char oper = '!' then detail.check_tag_not_equals
          else detail.check_tag_equals)
  .Call_key_str func key value

/-- Lowering `CompiledFilter::check_tag_regex`. -/
def check_tag_regex (key oper : String) (value_regex : Regex) : Node :=
  let func : Option (OSMObject → String → Regex → Bool) :=
    some (if first_char oper = '!' then detail.check_tag_not_match
          else detail.check_tag_match)
  .Call_key_regex func key value_regex

/-- Lowering `CompiledFilter::check_attr_int`: the attribute name selects the
accessor, the null pointer `0` when no name matches; the operator selects the
comparison, and the final `else` branch is `assert(false)`. -/
def check_attr_int (attr oper : String) (value : Int) : Except CompileError Node :=
  let func : Option (OSMObject → Int) :=
    if attr = "@id" then some detail.get_id
    else if attr = "@uid" then some detail.get_uid
    else if attr = "@changeset" then some detail.get_changeset
    else if attr = "@version" then some detail.get_version
    else if attr = "@nodes" then some detail.get_count_nodes
    else if attr = "@members" then some detail.get_count_members
    else if attr = "@tags" then some detail.get_count_tags
    else none
  let call := IntNode.Call func
  if oper = "=" then
    .ok (.Conditional ⟨.JE, call, .Immediate value⟩ (.Immediate true) (.Immediate false))
  else if oper = "!=" then
    .ok (.Conditional ⟨.JNE, call, .Immediate value⟩ (.Immediate true) (.Immediate false))
  else if oper = ">" then
    .ok (.Conditional ⟨.JG, call, .Immediate value⟩ (.Immediate true) (.Immediate false))
  else if oper = ">=" then
    .ok (.Conditional ⟨.JGE, call, .Immediate value⟩ (.Immediate true) (.Immediate false))
  else if oper = "<" then
    .ok (.Conditional ⟨.JL, call, .Immediate value⟩ (.Immediate true) (.Immediate false))
  else if oper = "<=" then
    .ok (.Conditional ⟨.JLE, call, .Immediate value⟩ (.Immediate true) (.Immediate false))
  else
    .error .assert_false

mutual

/-- Dispatch `CompiledFilter::compile` on the node kind. -/
def compile : ExprNode → Except CompileError Node
  | .and_expr children => compile_and children
  | .or_expr children => compile_or children
  | .not_expr child => do
    let c ← compile child
    pure (compile_not c)
  | .check_has_type type => pure (check_object_type type)
  | .check_has_key key => pure (check_has_key key)
  | .check_tag_str key oper value => pure (check_tag_str key oper value)
  | .check_tag_regex key oper value_regex => pure (check_tag_regex key oper value_regex)
  | .check_attr_int attr oper value => check_attr_int attr oper value

/-- Lowering `CompiledFilter::compile_and` of the children of an `AndExpr`:
the size assertion, the `And` of the first two compiled children, then the
fold over the remaining ones. The two arguments of the first `And` are
compiled left to right here; C++ leaves their order open, which matters only
for which of two failing children aborts the compilation. -/
def compile_and : List ExprNode → Except CompileError Node
  | e1 :: e2 :: f => do
    let n1 ← compile e1
    let n2 ← compile e2
    accumulate_and f (.And n1 n2)
  | _ => .error .assert_children_size

/-- The fold `std::accumulate(f, l, and_expression, ...)` of `compile_and`. -/
def accumulate_and : List ExprNode → Node → Except CompileError Node
  | [], and_expr => pure and_expr
  | expr :: f, and_expr => do
    let n ← compile expr
    accumulate_and f (.And and_expr n)

/-- Lowering `CompiledFilter::compile_or` of the children of an `OrExpr`. -/
def compile_or : List ExprNode → Except CompileError Node
  | e1 :: e2 :: f => do
    let n1 ← compile e1
    let n2 ← compile e2
    accumulate_or f (.Or n1 n2)
  | _ => .error .assert_children_size

/-- The fold `std::accumulate(f, l, or_expression, ...)` of `compile_or`. -/
def accumulate_or : List ExprNode → Node → Except CompileError Node
  | [], or_expr => pure or_expr
  | expr :: f, or_expr => do
    let n ← compile expr
    accumulate_or f (.Or or_expr n)

end

/-- Compile a tree and run the result on an entity: `none` when the
compilation aborts or the run does not return. -/
def evaluate (t : ExprNode) (p1 : OSMObject) : Option Bool :=
  match compile t with
  | .ok n => n.eval p1
  | .error _ => none

/-! ## Reference readings used to state the properties -/

/-- Conjunction of a list of evaluation results, taken in list order:
`r1 AND (r2 AND ...)`, undefined as soon as one result is undefined. The
reading of "the conjunction of the children's results". -/
def conj_results : List (Option Bool) → Option Bool
  | [] => some true
  | r :: rs => do
    let b ← r
    let bs ← conj_results rs
    pure (b && bs)

/-- Disjunction of a list of evaluation results, taken in list order:
`r1 OR (r2 OR ...)`, undefined as soon as one result is undefined. The
reading of "the disjunction of the children's results". -/
def disj_results : List (Option Bool) → Option Bool
  | [] => some false
  | r :: rs => do
    let b ← r
    let bs ← disj_results rs
    pure (b || bs)

/-- The seven integer attributes a `CheckAttrInt` node may name: id, uid,
changeset, version, node-count, member-count, tag-count. -/
inductive AttrName where
  | id
  | uid
  | changeset
  | version
  | node_count
  | member_count
  | tag_count
  deriving DecidableEq, Repr

/-- The attribute's name as written in a filter. -/
def AttrName.name : AttrName → String
  | .id => "@id"
  | .uid => "@uid"
  | .changeset => "@changeset"
  | .version => "@version"
  | .node_count => "@nodes"
  | .member_count => "@members"
  | .tag_count => "@tags"

/-- The accessor an attribute names. -/
def AttrName.accessor : AttrName → OSMObject → Int
  | .id => detail.get_id
  | .uid => detail.get_uid
  | .changeset => detail.get_changeset
  | .version => detail.get_version
  | .node_count => detail.get_count_nodes
  | .member_count => detail.get_count_members
  | .tag_count => detail.get_count_tags

/-- The six integer comparison operators `=, !=, >, >=, <, <=`. -/
inductive IntOper where
  | eq
  | ne
  | gt
  | ge
  | lt
  | le
  deriving DecidableEq, Repr

/-- The operator as written in a filter. -/
def IntOper.name : IntOper → String
  | .eq => "="
  | .ne => "!="
  | .gt => ">"
  | .ge => ">="
  | .lt => "<"
  | .le => "<="

/-- The comparison on integers an operator stands for, `a op b`. -/
def IntOper.holds : IntOper → Int → Int → Bool
  | .eq, a, b => decide (a = b)
  | .ne, a, b => decide (a ≠ b)
  | .gt, a, b => decide (a > b)
  | .ge, a, b => decide (a ≥ b)
  | .lt, a, b => decide (a < b)
  | .le, a, b => decide (a ≤ b)

/-- The condition code `check_attr_int` uses for an operator. -/
def IntOper.jcc : IntOper → JccType
  | .eq => .JE
  | .ne => .JNE
  | .gt => .JG
  | .ge => .JGE
  | .lt => .JL
  | .le => .JLE

mutual

/-- Every `CheckAttrInt` node of the tree names one of the seven attributes
`check_attr_int` has an accessor for. -/
def attrs_recognized : ExprNode → Bool
  | .and_expr children => attrs_recognized_list children
  | .or_expr children => attrs_recognized_list children
  | .not_expr child => attrs_recognized child
  | .check_attr_int attr _ _ =>
    decide (attr ∈ ["@id", "@uid", "@changeset", "@version", "@nodes", "@members", "@tags"])
  | _ => true

/-- Every tree of the list satisfies `attrs_recognized`. -/
def attrs_recognized_list : List ExprNode → Bool
  | [] => true
  | c :: cs => attrs_recognized c && attrs_recognized_list cs

end

mutual

/-- The tree contains an `And` node or an `Or` node with fewer than two
children, at the root or anywhere below it. -/
def has_short_node : ExprNode → Bool
  | .and_expr children => decide (children.length < 2) || has_short_node_list children
  | .or_expr children => decide (children.length < 2) || has_short_node_list children
  | .not_expr child => has_short_node child
  | _ => false

/-- Some tree of the list satisfies `has_short_node`. -/
def has_short_node_list : List ExprNode → Bool
  | [] => false
  | c :: cs => has_short_node c || has_short_node_list cs

end

/-! ## Instrumented evaluation: the accessor calls of a run -/

/-- One accessor call made by a compiled predicate: the function-pointer
immediate of the `Call` node and its constant arguments. -/
inductive CallSite where
  | int (func : Option (OSMObject → Int))
  | key (func : Option (OSMObject → String → Bool)) (key : String)
  | key_str (func : Option (OSMObject → String → String → Bool)) (key value : String)
  | key_regex (func : Option (OSMObject → String → Regex → Bool)) (key : String)
      (value : Regex)

/-- Calls made to compute an integer node. -/
def IntNode.calls : IntNode → List CallSite
  | .Immediate _ => []
  | .Call func => [.int func]

/-- Calls made to compute a flag node: those of its two operands. -/
def FlagNode.calls (c : FlagNode) : List CallSite :=
  c.left.calls ++ c.right.calls

/-- Accessor calls made by a run of a boolean node on the entity `p1` that
returns (a run stopped at a call through the null pointer makes only part of
them). A binary operation makes the calls of both operands, listed left
operand first; `If` and `Conditional` make the calls of the condition and of
the branch selected. The library may compute the two operands of a binary
operation in either order, which changes the order of the list and not its
members. -/
def Node.calls (p1 : OSMObject) : Node → List CallSite
  | .And left right => left.calls p1 ++ right.calls p1
  | .Or left right => left.calls p1 ++ right.calls p1
  | .If cond thenValue elseValue =>
    cond.calls p1 ++
      (match cond.eval p1 with
       | some true => thenValue.calls p1
       | some false => elseValue.calls p1
       | none => [])
  | .Immediate _ => []
  | .Conditional cond trueValue falseValue =>
    cond.calls ++
      (match cond.eval p1 with
       | some true => trueValue.calls p1
       | some false => falseValue.calls p1
       | none => [])
  | .Call_key func key => [.key func key]
  | .Call_key_str func key value => [.key_str func key value]
  | .Call_key_regex func key value => [.key_regex func key value]

/-- Compile a tree and list the accessor calls of a run of the result on an
entity; no call when the compilation aborts. -/
def evaluate_calls (t : ExprNode) (p1 : OSMObject) : List CallSite :=
  match compile t with
  | .ok n => n.calls p1
  | .error _ => []

/-- The children a short-circuiting conjunction would evaluate on `p1`: the
children in list order up to and including the first one that evaluates to
false, all of them when none does. -/
def short_circuit_children (p1 : OSMObject) : List ExprNode → List ExprNode
  | [] => []
  | c :: cs =>
    if evaluate c p1 = some false then [c]
    else c :: short_circuit_children p1 cs

/-- The accessor calls of evaluating the given children one after the
other. -/
def children_calls (p1 : OSMObject) (cs : List ExprNode) : List CallSite :=
  (cs.map (fun c => evaluate_calls c p1)).flatten

/-! ## Example entities and trees -/

/-- A point with the single tag `highway -> primary`. -/
def example_point : OSMObject :=
  ⟨.node, 5, 1, 1, 1, [⟨"highway", "primary"⟩], [], []⟩

/-- A way with the given number of nodes and the tag `highway -> service`. -/
def example_way (n : Nat) : OSMObject :=
  ⟨.way, 7, 1, 2, 1, [⟨"highway", "service"⟩], List.replicate n 0, []⟩

/-- Children of the tree `And(CheckType(way), CheckAttrInt(node-count, >=, 2))`. -/
def example_children : List ExprNode :=
  [.check_has_type .way, .check_attr_int "@nodes" ">=" 2]

/-- Every child of `example_children` compiles. -/
theorem example_children_compile :
    ∀ c ∈ example_children, ∃ n, compile c = .ok n := by
  intro c hc
  rcases List.mem_cons.1 hc with h | h
  · exact ⟨_, by rw [h]; rfl⟩
  · rcases List.mem_cons.1 h with h | h
    · exact ⟨_, by rw [h]; rfl⟩
    · cases h

/-! ## Properties of the entity model -/

theorem strcmp_chars_eq_zero_iff (a b : List Char) :
    strcmp_chars a b = 0 ↔ a = b := by
  induction a generalizing b with
  | nil => cases b <;> simp [strcmp_chars]
  | cons x xs ih =>
    cases b with
    | nil => simp [strcmp_chars]
    | cons y ys =>
      by_cases h : x = y
      · simp [strcmp_chars, h, ih]
      · simp only [strcmp_chars, h, if_false]
        constructor
        · intro h0
          split at h0 <;> simp at h0
        · intro h0
          simp_all

/-- `strcmp` returns zero exactly on equal strings. -/
theorem strcmp_eq_zero_iff (a b : String) : strcmp a b = 0 ↔ a = b := by
  unfold strcmp
  rw [strcmp_chars_eq_zero_iff]
  constructor
  · intro h
    exact String.ext h
  · intro h
    rw [h]

/-- The lookup finds nothing exactly when no tag has the key. -/
theorem get_value_by_key_eq_none_iff (tags : List Tag) (k : String) :
    get_value_by_key tags k = none ↔ ∀ t ∈ tags, t.key ≠ k := by
  simp [get_value_by_key, strcmp_eq_zero_iff]

/-- `has_key` is false exactly when the lookup finds nothing. -/
theorem has_key_eq_false_iff (e : OSMObject) (k : String) :
    detail.has_key e k = false ↔ get_value_by_key e.tags k = none := by
  rw [get_value_by_key_eq_none_iff]
  simp [detail.has_key, TagList_has_key, strcmp_eq_zero_iff]

/-- With unique keys the lookup returns `w` exactly when the tag `k -> w` is
in the list. -/
theorem get_value_by_key_eq_some_iff (tags : List Tag) (k w : String)
    (hu : (tags.map Tag.key).Nodup) :
    get_value_by_key tags k = some w ↔ (⟨k, w⟩ : Tag) ∈ tags := by
  induction tags with
  | nil => simp [get_value_by_key]
  | cons t ts ih =>
    rw [List.map_cons, List.nodup_cons] at hu
    have ih2 := ih hu.2
    by_cases hk : t.key = k
    · have hnot : ∀ t2 ∈ ts, t2.key ≠ k := by
        intro t2 ht2 h2
        apply hu.1
        rw [hk, ← h2]
        exact List.mem_map_of_mem Tag.key ht2
      have hfind : get_value_by_key (t :: ts) k = some t.value := by
        simp [get_value_by_key, List.find?_cons, (strcmp_eq_zero_iff t.key k).2 hk]
      rw [hfind]
      constructor
      · intro h
        have hw : t.value = w := by simpa using h
        have : t = ⟨k, w⟩ := by
          cases t
          simp_all
        rw [← this]
        exact List.mem_cons_self _ _
      · intro h
        rcases List.mem_cons.1 h with h1 | h1
        · rw [← h1]
        · exact absurd rfl (hnot _ h1)
    · have hne : ¬ strcmp t.key k = 0 := fun h => hk ((strcmp_eq_zero_iff _ _).1 h)
      have hfind : get_value_by_key (t :: ts) k = get_value_by_key ts k := by
        simp [get_value_by_key, List.find?_cons, hne]
      rw [hfind, ih2]
      constructor
      · intro h
        exact List.mem_cons_of_mem _ h
      · intro h
        rcases List.mem_cons.1 h with h1 | h1
        · exact absurd (by rw [← h1]) hk
        · exact h1

/-! ## Properties of the compiler: logical nodes -/

/-- The fold of `compile_and` over compiled children builds the left-nested
chain of `And` nodes. -/
theorem accumulate_and_ok (f : List ExprNode) (ns : List Node) (acc : Node)
    (h : List.Forall₂ (fun c n => compile c = .ok n) f ns) :
    accumulate_and f acc = .ok (ns.foldl Node.And acc) := by
  induction h generalizing acc with
  | nil => simp [accumulate_and, pure, Except.pure]
  | cons hc _ ih => simp [accumulate_and, hc, ih, bind, Except.bind]

/-- The fold of `compile_or` over compiled children builds the left-nested
chain of `Or` nodes. -/
theorem accumulate_or_ok (f : List ExprNode) (ns : List Node) (acc : Node)
    (h : List.Forall₂ (fun c n => compile c = .ok n) f ns) :
    accumulate_or f acc = .ok (ns.foldl Node.Or acc) := by
  induction h generalizing acc with
  | nil => simp [accumulate_or, pure, Except.pure]
  | cons hc _ ih => simp [accumulate_or, hc, ih, bind, Except.bind]

/-- Value of a left-nested chain of `And` nodes. -/
theorem eval_foldl_And (e : OSMObject) (ns : List Node) (acc : Node) :
    (ns.foldl Node.And acc).eval e
      = conj_results (acc.eval e :: ns.map (fun n => n.eval e)) := by
  induction ns generalizing acc with
  | nil =>
    cases h : acc.eval e <;> simp [conj_results, h]
  | cons n ns ih =>
    rw [List.foldl_cons, ih]
    cases h1 : acc.eval e <;> cases h2 : n.eval e <;>
      cases h3 : conj_results (ns.map (fun n => n.eval e)) <;>
      simp [conj_results, Node.eval, h1, h2, h3, Bool.and_assoc]

/-- Value of a left-nested chain of `Or` nodes. -/
theorem eval_foldl_Or (e : OSMObject) (ns : List Node) (acc : Node) :
    (ns.foldl Node.Or acc).eval e
      = disj_results (acc.eval e :: ns.map (fun n => n.eval e)) := by
  induction ns generalizing acc with
  | nil =>
    cases h : acc.eval e <;> simp [disj_results, h]
  | cons n ns ih =>
    rw [List.foldl_cons, ih]
    cases h1 : acc.eval e <;> cases h2 : n.eval e <;>
      cases h3 : disj_results (ns.map (fun n => n.eval e)) <;>
      simp [disj_results, Node.eval, h1, h2, h3, Bool.or_assoc]

/-- Children that all compile have a list of compiled nodes, each evaluating
as `evaluate` says. -/
theorem compiled_children (cs : List ExprNode)
    (hc : ∀ c ∈ cs, ∃ n, compile c = .ok n) :
    ∃ ns, List.Forall₂ (fun c n => compile c = .ok n) cs ns
      ∧ ∀ e, ns.map (fun n => n.eval e) = cs.map (fun c => evaluate c e) := by
  induction cs with
  | nil => exact ⟨[], List.Forall₂.nil, fun _ => rfl⟩
  | cons c cs ih =>
    obtain ⟨n, hn⟩ := hc c (List.mem_cons_self _ _)
    obtain ⟨ns, hns, hev⟩ := ih (fun c2 h2 => hc c2 (List.mem_cons_of_mem _ h2))
    refine ⟨n :: ns, List.Forall₂.cons hn hns, fun e => ?_⟩
    simp [hev e, evaluate, hn]

/-- A conjunction of results is true exactly when every result is true. -/
theorem conj_results_eq_true_iff (rs : List (Option Bool)) :
    conj_results rs = some true ↔ ∀ r ∈ rs, r = some true := by
  induction rs with
  | nil => simp [conj_results]
  | cons r rs ih =>
    cases r with
    | none => simp [conj_results]
    | some b =>
      cases h : conj_results rs with
      | none =>
        have : ¬ ∀ r ∈ rs, r = some true := fun h2 => by simp [ih.2 h2] at h
        simp [conj_results, h, this]
      | some b2 =>
        cases b2 with
        | true =>
          have hall := ih.1 h
          simp [conj_results, h]
          exact fun _ => hall
        | false =>
          have : ¬ ∀ r ∈ rs, r = some true := fun h2 => by simp [ih.2 h2] at h
          simp [conj_results, h, this]

/-- When every result is defined, the disjunction is defined, and it is true
exactly when some result is true. -/
theorem disj_results_of_defined (rs : List (Option Bool))
    (hd : ∀ r ∈ rs, r ≠ none) :
    ∃ b, disj_results rs = some b ∧ (b = true ↔ some true ∈ rs) := by
  induction rs with
  | nil => simp [disj_results]
  | cons r rs ih =>
    obtain ⟨b2, hb2, hiff⟩ := ih (fun r2 h2 => hd r2 (List.mem_cons_of_mem _ h2))
    cases r with
    | none => exact absurd rfl (hd none (List.mem_cons_self _ _))
    | some b =>
      refine ⟨b || b2, by simp [disj_results, hb2], ?_⟩
      cases b <;> simp [hiff]

/-- C1: for every entity `e` and every `And` node with at least two children
that all compile, the node compiles and its predicate evaluates on `e` to the
conjunction of the children's results in list order; it is true exactly when
every child evaluates to true, and with exactly two children `c1`, `c2` it is
`evaluate c1 e AND evaluate c2 e`. -/
theorem compile_and_conjunction (e : OSMObject) (cs : List ExprNode)
    (hlen : 2 ≤ cs.length) (hc : ∀ c ∈ cs, ∃ n, compile c = .ok n) :
    ∃ m, compile (.and_expr cs) = .ok m
      ∧ m.eval e = conj_results (cs.map (fun c => evaluate c e))
      ∧ (m.eval e = some true ↔ ∀ c ∈ cs, evaluate c e = some true)
      ∧ (∀ c1 c2 b1 b2, cs = [c1, c2] → evaluate c1 e = some b1 →
          evaluate c2 e = some b2 → m.eval e = some (b1 && b2)) := by
  obtain ⟨ns, hns, hev⟩ := compiled_children cs hc
  cases hns with
  | nil => simp at hlen
  | @cons c1 n1 cs1 ns1 h1 hrest =>
    cases hrest with
    | nil => simp at hlen
    | @cons c2 n2 f rest h2 hf =>
      have hcomp : compile (.and_expr (c1 :: c2 :: f))
          = .ok (rest.foldl Node.And (.And n1 n2)) := by
        simp [compile, compile_and, h1, h2, accumulate_and_ok f rest _ hf, bind, Except.bind]
      have hval : (rest.foldl Node.And (.And n1 n2)).eval e
          = conj_results ((c1 :: c2 :: f).map (fun c => evaluate c e)) := by
        rw [eval_foldl_And, ← hev e]
        cases h1e : n1.eval e <;> cases h2e : n2.eval e <;>
          cases h3 : conj_results (rest.map (fun n => n.eval e)) <;>
          simp [conj_results, Node.eval, h1e, h2e, h3, Bool.and_assoc]
      refine ⟨_, hcomp, hval, ?_, ?_⟩
      · rw [hval, conj_results_eq_true_iff]
        simp
      · intro d1 d2 b1 b2 hcs hb1 hb2
        rw [hval, hcs]
        simp [conj_results, hb1, hb2]

/-- Witness of C1: the two-child `And` node over `example_children`, on a way
with three nodes. -/
theorem compile_and_conjunction_witness :
    2 ≤ example_children.length
      ∧ (∀ c ∈ example_children, ∃ n, compile c = .ok n)
      ∧ ∃ m, compile (.and_expr example_children) = .ok m
        ∧ m.eval (example_way 3)
            = conj_results (example_children.map (fun c => evaluate c (example_way 3)))
        ∧ (m.eval (example_way 3) = some true
            ↔ ∀ c ∈ example_children, evaluate c (example_way 3) = some true)
        ∧ (∀ c1 c2 b1 b2, example_children = [c1, c2] →
            evaluate c1 (example_way 3) = some b1 →
            evaluate c2 (example_way 3) = some b2 →
            m.eval (example_way 3) = some (b1 && b2)) :=
  ⟨by decide, example_children_compile,
    compile_and_conjunction (example_way 3) example_children (by decide)
      example_children_compile⟩

/-- C2: for every entity `e` and every `Or` node with at least two children
that all compile, the node compiles and its predicate evaluates on `e` to the
disjunction of the children's results in list order; when every child
evaluates to a boolean it is true exactly when some child evaluates to
true. -/
theorem compile_or_disjunction (e : OSMObject) (cs : List ExprNode)
    (hlen : 2 ≤ cs.length) (hc : ∀ c ∈ cs, ∃ n, compile c = .ok n) :
    ∃ m, compile (.or_expr cs) = .ok m
      ∧ m.eval e = disj_results (cs.map (fun c => evaluate c e))
      ∧ ((∀ c ∈ cs, evaluate c e ≠ none) →
          ∃ b, m.eval e = some b ∧ (b = true ↔ ∃ c ∈ cs, evaluate c e = some true)) := by
  obtain ⟨ns, hns, hev⟩ := compiled_children cs hc
  cases hns with
  | nil => simp at hlen
  | @cons c1 n1 cs1 ns1 h1 hrest =>
    cases hrest with
    | nil => simp at hlen
    | @cons c2 n2 f rest h2 hf =>
      have hcomp : compile (.or_expr (c1 :: c2 :: f))
          = .ok (rest.foldl Node.Or (.Or n1 n2)) := by
        simp [compile, compile_or, h1, h2, accumulate_or_ok f rest _ hf, bind, Except.bind]
      have hval : (rest.foldl Node.Or (.Or n1 n2)).eval e
          = disj_results ((c1 :: c2 :: f).map (fun c => evaluate c e)) := by
        rw [eval_foldl_Or, ← hev e]
        cases h1e : n1.eval e <;> cases h2e : n2.eval e <;>
          cases h3 : disj_results (rest.map (fun n => n.eval e)) <;>
          simp [disj_results, Node.eval, h1e, h2e, h3, Bool.or_assoc]
      refine ⟨_, hcomp, hval, ?_⟩
      intro hdef
      obtain ⟨b, hb, hiff⟩ := disj_results_of_defined
        ((c1 :: c2 :: f).map (fun c => evaluate c e))
        (by
          intro r hr
          obtain ⟨c, hcm, rfl⟩ := List.mem_map.1 hr
          exact hdef c hcm)
      refine ⟨b, by rw [hval, hb], ?_⟩
      rw [hiff, List.mem_map]

/-- Witness of C2: the two-child `Or` node over `example_children`, on a
point. -/
theorem compile_or_disjunction_witness :
    2 ≤ example_children.length
      ∧ (∀ c ∈ example_children, ∃ n, compile c = .ok n)
      ∧ ∃ m, compile (.or_expr example_children) = .ok m
        ∧ m.eval example_point
            = disj_results (example_children.map (fun c => evaluate c example_point))
        ∧ ((∀ c ∈ example_children, evaluate c example_point ≠ none) →
            ∃ b, m.eval example_point = some b
              ∧ (b = true ↔ ∃ c ∈ example_children, evaluate c example_point = some true)) :=
  ⟨by decide, example_children_compile,
    compile_or_disjunction example_point example_children (by decide)
      example_children_compile⟩

/-- C3: for every entity `e` and every child `c` that compiles, `Not(c)`
compiles and its predicate evaluates on `e` to the boolean complement of the
child's result. -/
theorem compile_not_complement (e : OSMObject) (c : ExprNode) (n : Node)
    (h : compile c = .ok n) :
    ∃ m, compile (.not_expr c) = .ok m
      ∧ m.eval e = (evaluate c e).map (fun b => !b)
      ∧ (∀ b, evaluate c e = some b → m.eval e = some (!b)) := by
  have hval : (compile_not n).eval e = (evaluate c e).map (fun b => !b) := by
    cases hn : n.eval e with
    | none => simp [compile_not, Node.eval, evaluate, h, hn]
    | some b => cases b <;> simp [compile_not, Node.eval, evaluate, h, hn]
  refine ⟨compile_not n, by simp [compile, h, bind, Except.bind, pure, Except.pure], hval, ?_⟩
  intro b hb
  rw [hval, hb]
  rfl

/-- Witness of C3: the negation of a key test, on a point. -/
theorem compile_not_complement_witness :
    compile (.check_has_key "name") = .ok (check_has_key "name")
      ∧ ∃ m, compile (.not_expr (.check_has_key "name")) = .ok m
        ∧ m.eval example_point
            = (evaluate (.check_has_key "name") example_point).map (fun b => !b)
        ∧ (∀ b, evaluate (.check_has_key "name") example_point = some b →
            m.eval example_point = some (!b)) :=
  ⟨rfl, compile_not_complement example_point (.check_has_key "name")
    (check_has_key "name") rfl⟩

/-! ## Properties of the compiler: tag comparisons -/

/-- C4: `CheckTagString(k, "!=", v)` compiles, and on every entity it
evaluates to true exactly when the entity has a tag with key `k` whose value
differs from `v`: false when the key is absent, true on `k -> w` with
`w ≠ v`, false on `k -> v`; with unique keys, true exactly when some tag
`k -> w` with `w ≠ v` is in the tag list. -/
theorem check_tag_str_not_equals (e : OSMObject) (k v : String) :
    (∃ b, evaluate (.check_tag_str k "!=" v) e = some b
        ∧ (b = true ↔ ∃ w, get_value_by_key e.tags k = some w ∧ w ≠ v))
      ∧ (detail.has_key e k = false → evaluate (.check_tag_str k "!=" v) e = some false)
      ∧ ((∀ t ∈ e.tags, t.key ≠ k) → evaluate (.check_tag_str k "!=" v) e = some false)
      ∧ (∀ w, get_value_by_key e.tags k = some w → w ≠ v →
          evaluate (.check_tag_str k "!=" v) e = some true)
      ∧ (get_value_by_key e.tags k = some v →
          evaluate (.check_tag_str k "!=" v) e = some false)
      ∧ ((e.tags.map Tag.key).Nodup →
          (evaluate (.check_tag_str k "!=" v) e = some true
            ↔ ∃ w, (⟨k, w⟩ : Tag) ∈ e.tags ∧ w ≠ v)) := by
  have hev : evaluate (.check_tag_str k "!=" v) e
      = some (detail.check_tag_not_equals e k v) := by
    simp [evaluate, compile, check_tag_str, first_char, Node.eval, pure, Except.pure]
  have hnone : get_value_by_key e.tags k = none →
      detail.check_tag_not_equals e k v = false := by
    intro h
    simp [detail.check_tag_not_equals, h]
  have hsome : ∀ w, get_value_by_key e.tags k = some w →
      (detail.check_tag_not_equals e k v = true ↔ w ≠ v) := by
    intro w h
    simp only [detail.check_tag_not_equals, h, bne_iff_ne, ne_eq, strcmp_eq_zero_iff]
    exact ⟨fun h1 h2 => h1 h2.symm, fun h1 h2 => h1 h2.symm⟩
  have hiff : detail.check_tag_not_equals e k v = true
      ↔ ∃ w, get_value_by_key e.tags k = some w ∧ w ≠ v := by
    cases hg : get_value_by_key e.tags k with
    | none => simp [hnone hg]
    | some w => simp [hsome w hg]
  refine ⟨⟨_, hev, hiff⟩, ?_, ?_, ?_, ?_, ?_⟩
  · intro h
    rw [hev, hnone ((has_key_eq_false_iff e k).1 h)]
  · intro h
    rw [hev, hnone ((get_value_by_key_eq_none_iff e.tags k).2 h)]
  · intro w hw hne
    rw [hev, (hsome w hw).2 hne]
  · intro hv
    rw [hev]
    cases hb : detail.check_tag_not_equals e k v with
    | false => rfl
    | true => exact absurd rfl ((hsome v hv).1 hb)
  · intro hu
    rw [hev, Option.some.injEq, hiff]
    constructor
    · rintro ⟨w, hw, hne⟩
      exact ⟨w, (get_value_by_key_eq_some_iff e.tags k w hu).1 hw, hne⟩
    · rintro ⟨w, hw, hne⟩
      exact ⟨w, (get_value_by_key_eq_some_iff e.tags k w hu).2 hw, hne⟩

/-- C5: `CheckTagString(k, "=", v)` compiles, and on every entity it evaluates
to true exactly when the entity has a tag with key `k` whose value equals
`v`: false when the key is absent, true on `k -> v`, false on `k -> w` with
`w ≠ v`; with unique keys, true exactly when the tag `k -> v` is in the tag
list. -/
theorem check_tag_str_equals (e : OSMObject) (k v : String) :
    (∃ b, evaluate (.check_tag_str k "=" v) e = some b
        ∧ (b = true ↔ get_value_by_key e.tags k = some v))
      ∧ (detail.has_key e k = false → evaluate (.check_tag_str k "=" v) e = some false)
      ∧ ((∀ t ∈ e.tags, t.key ≠ k) → evaluate (.check_tag_str k "=" v) e = some false)
      ∧ (get_value_by_key e.tags k = some v →
          evaluate (.check_tag_str k "=" v) e = some true)
      ∧ (∀ w, get_value_by_key e.tags k = some w → w ≠ v →
          evaluate (.check_tag_str k "=" v) e = some false)
      ∧ ((e.tags.map Tag.key).Nodup →
          (evaluate (.check_tag_str k "=" v) e = some true ↔ (⟨k, v⟩ : Tag) ∈ e.tags)) := by
  have hev : evaluate (.check_tag_str k "=" v) e
      = some (detail.check_tag_equals e k v) := by
    simp [evaluate, compile, check_tag_str, first_char, Node.eval, pure, Except.pure]
  have hnone : get_value_by_key e.tags k = none →
      detail.check_tag_equals e k v = false := by
    intro h
    simp [detail.check_tag_equals, h]
  have hsome : ∀ w, get_value_by_key e.tags k = some w →
      (detail.check_tag_equals e k v = true ↔ w = v) := by
    intro w h
    simp only [detail.check_tag_equals, h, beq_iff_eq, strcmp_eq_zero_iff]
    exact ⟨fun h1 => h1.symm, fun h1 => h1.symm⟩
  have hiff : detail.check_tag_equals e k v = true
      ↔ get_value_by_key e.tags k = some v := by
    cases hg : get_value_by_key e.tags k with
    | none => simp [hnone hg]
    | some w => simp [hsome w hg]
  refine ⟨⟨_, hev, hiff⟩, ?_, ?_, ?_, ?_, ?_⟩
  · intro h
    rw [hev, hnone ((has_key_eq_false_iff e k).1 h)]
  · intro h
    rw [hev, hnone ((get_value_by_key_eq_none_iff e.tags k).2 h)]
  · intro hv
    rw [hev, hiff.2 hv]
  · intro w hw hne
    rw [hev]
    cases hb : detail.check_tag_equals e k v with
    | false => rfl
    | true => exact absurd ((hsome w hw).1 hb) hne
  · intro hu
    rw [hev, Option.some.injEq, hiff]
    exact get_value_by_key_eq_some_iff e.tags k v hu

/-! ## Properties of the compiler: integer attributes -/

/-- The conversion `int64_t` lands in the signed 64-bit range. -/
theorem int64_t_range (n : Int) : -2 ^ 63 ≤ int64_t n ∧ int64_t n < 2 ^ 63 := by
  unfold int64_t
  constructor <;> omega

/-- Every attribute accessor returns a signed 64-bit value. -/
theorem accessor_range (a : AttrName) (e : OSMObject) :
    -2 ^ 63 ≤ a.accessor e ∧ a.accessor e < 2 ^ 63 := by
  cases a
  case node_count =>
    simp only [AttrName.accessor, detail.get_count_nodes]
    split
    · constructor <;> decide
    · exact int64_t_range _
  case member_count =>
    simp only [AttrName.accessor, detail.get_count_members]
    split
    · constructor <;> decide
    · exact int64_t_range _
  all_goals exact int64_t_range _

/-- The node built by `check_attr_int` for a recognized attribute and a
recognized operator. -/
theorem check_attr_int_known (a : AttrName) (o : IntOper) (v : Int) :
    check_attr_int a.name o.name v
      = .ok (.Conditional ⟨o.jcc, .Call (some a.accessor), .Immediate v⟩
          (.Immediate true) (.Immediate false)) := by
  cases a <;> cases o <;> rfl

/-- The comparison of a condition code is the comparison of its operator. -/
theorem jcc_holds (o : IntOper) (x v : Int) : o.jcc.holds x v = o.holds x v := by
  cases o <;> simp [IntOper.jcc, JccType.holds, IntOper.holds, bne, beq_eq_decide]

/-- C6: for every entity, each of the seven attribute names, each of the six
operators and every operand `v`, `CheckAttrInt(attr, op, v)` compiles and
evaluates to `accessor(e) op v`, the comparison of the value of the accessor
the attribute names (a signed 64-bit value) with `v`. -/
theorem check_attr_int_compares (e : OSMObject) (a : AttrName) (o : IntOper) (v : Int) :
    evaluate (.check_attr_int a.name o.name v) e = some (o.holds (a.accessor e) v)
      ∧ -2 ^ 63 ≤ a.accessor e ∧ a.accessor e < 2 ^ 63 := by
  refine ⟨?_, accessor_range a e⟩
  have hc : compile (.check_attr_int a.name o.name v)
      = .ok (.Conditional ⟨o.jcc, .Call (some a.accessor), .Immediate v⟩
          (.Immediate true) (.Immediate false)) := by
    rw [compile]
    exact check_attr_int_known a o v
  simp only [evaluate, hc, Node.eval, FlagNode.eval, IntNode.eval, jcc_holds]
  cases hb : o.holds (a.accessor e) v <;> simp [hb]

/-- C7 (the code at `"@bogus"`): with each of the six operators, compiling
`CheckAttrInt("@bogus", op, v)` does not fail; it returns a predicate whose
call goes through the null function pointer. -/
theorem check_attr_int_bogus_compiles (o : IntOper) (v : Int) :
    compile (.check_attr_int "@bogus" o.name v)
      = .ok (.Conditional ⟨o.jcc, .Call none, .Immediate v⟩
          (.Immediate true) (.Immediate false)) := by
  cases o <;> rfl

/-- C8: compiling an `And` node or an `Or` node with fewer than two children
aborts on the size assertion and yields no predicate. -/
theorem compile_fewer_than_two_children (cs : List ExprNode) (h : cs.length < 2) :
    compile (.and_expr cs) = .error .assert_children_size
      ∧ compile (.or_expr cs) = .error .assert_children_size
      ∧ (∀ e, evaluate (.and_expr cs) e = none ∧ evaluate (.or_expr cs) e = none) := by
  match cs, h with
  | [], _ => exact ⟨rfl, rfl, fun _ => ⟨rfl, rfl⟩⟩
  | [c], _ =>
    have h1 : compile (.and_expr [c]) = .error .assert_children_size := by
      simp [compile, compile_and]
    have h2 : compile (.or_expr [c]) = .error .assert_children_size := by
      simp [compile, compile_or]
    exact ⟨h1, h2, fun _ => ⟨by simp [evaluate, h1], by simp [evaluate, h2]⟩⟩
  | _ :: _ :: _, h => exact absurd h (by simp)

/-- Witness of C8: an `And` node and an `Or` node with one child. -/
theorem compile_fewer_than_two_children_witness :
    [ExprNode.check_has_key "name"].length < 2
      ∧ compile (.and_expr [.check_has_key "name"]) = .error .assert_children_size
      ∧ compile (.or_expr [.check_has_key "name"]) = .error .assert_children_size
      ∧ (∀ e, evaluate (.and_expr [.check_has_key "name"]) e = none
          ∧ evaluate (.or_expr [.check_has_key "name"]) e = none) :=
  ⟨by decide, compile_fewer_than_two_children [.check_has_key "name"] (by decide)⟩

/-- C9: compiling a `CheckAttrInt` node whose operator is none of
`=, !=, >, >=, <, <=` aborts on the closing `assert(false)` and yields no
predicate, whatever the attribute name and the operand. -/
theorem check_attr_int_unknown_operator (attr oper : String) (v : Int)
    (h : oper ∉ ["=", "!=", ">", ">=", "<", "<="]) :
    compile (.check_attr_int attr oper v) = .error .assert_false
      ∧ (∀ e, evaluate (.check_attr_int attr oper v) e = none) := by
  simp only [List.mem_cons, List.mem_singleton, List.mem_nil_iff, or_false, not_or] at h
  obtain ⟨h1, h2, h3, h4, h5, h6⟩ := h
  have hc : compile (.check_attr_int attr oper v) = .error .assert_false := by
    simp [compile, check_attr_int, h1, h2, h3, h4, h5, h6]
  exact ⟨hc, fun _ => by simp [evaluate, hc]⟩

/-- Witness of C9: the operator `"=~"` on the attribute `"@id"`. -/
theorem check_attr_int_unknown_operator_witness :
    "=~" ∉ ["=", "!=", ">", ">=", "<", "<="]
      ∧ compile (.check_attr_int "@id" "=~" 3) = .error .assert_false
      ∧ (∀ e, evaluate (.check_attr_int "@id" "=~" 3) e = none) :=
  ⟨by decide, check_attr_int_unknown_operator "@id" "=~" 3 (by decide)⟩

/-- C10 (the code at `"@bogus"`): the tree `CheckAttrInt("@bogus", "=", 0)`
compiles, and on every entity the evaluation of the compiled predicate does
not return a boolean: the call goes through the null function pointer. -/
theorem evaluate_bogus_attribute_fails (e : OSMObject) :
    ∃ n, compile (.check_attr_int "@bogus" "=" 0) = .ok n ∧ n.eval e = none :=
  ⟨_, rfl, rfl⟩

/-! ## Totality of evaluation away from the null accessor -/

/-- Value of the node `check_attr_int` and `check_object_type` build around a
call of a non-null accessor. -/
theorem eval_conditional_call (jcc : JccType) (f : OSMObject → Int) (v : Int)
    (e : OSMObject) :
    (Node.Conditional ⟨jcc, .Call (some f), .Immediate v⟩ (.Immediate true)
      (.Immediate false)).eval e = some (jcc.holds (f e) v) := by
  simp only [Node.eval, FlagNode.eval, IntNode.eval]
  cases hb : jcc.holds (f e) v <;> simp [hb]

/-- A `CheckAttrInt` node with a recognized attribute, once compiled,
evaluates to a boolean on every entity. -/
theorem check_attr_int_total (attr oper : String) (v : Int) (n : Node) (e : OSMObject)
    (hr : attr ∈ ["@id", "@uid", "@changeset", "@version", "@nodes", "@members", "@tags"])
    (hc : check_attr_int attr oper v = .ok n) : ∃ b, n.eval e = some b := by
  have hf : ∃ f, (if attr = "@id" then some detail.get_id
    else if attr = "@uid" then some detail.get_uid
    else if attr = "@changeset" then some detail.get_changeset
    else if attr = "@version" then some detail.get_version
    else if attr = "@nodes" then some detail.get_count_nodes
    else if attr = "@members" then some detail.get_count_members
    else if attr = "@tags" then some detail.get_count_tags
    else none) = some f := by
    simp only [List.mem_cons, List.mem_singleton, List.mem_nil_iff, or_false] at hr
    rcases hr with h | h | h | h | h | h | h <;> subst h <;> exact ⟨_, rfl⟩
  obtain ⟨f, hf⟩ := hf
  unfold check_attr_int at hc
  simp only [hf] at hc
  split_ifs at hc <;> cases hc <;> exact ⟨_, eval_conditional_call _ _ _ _⟩

/-- A successful bind in `Except` comes from two successful steps. -/
theorem except_bind_ok {α β ε : Type} (x : Except ε α) (g : α → Except ε β) (r : β)
    (h : x >>= g = .ok r) : ∃ a, x = .ok a ∧ g a = .ok r := by
  cases x with
  | error err => cases h
  | ok a => exact ⟨a, rfl, h⟩

mutual

/-- On a tree whose `CheckAttrInt` nodes all name recognized attributes, a
successfully compiled predicate returns a boolean on every entity. -/
theorem eval_total_of_attrs_recognized (t : ExprNode) (n : Node) (e : OSMObject)
    (hr : attrs_recognized t = true) (hc : compile t = .ok n) :
    ∃ b, n.eval e = some b := by
  cases t with
  | and_expr cs =>
    rw [compile] at hc
    rw [attrs_recognized] at hr
    exact compile_and_total cs n e hr hc
  | or_expr cs =>
    rw [compile] at hc
    rw [attrs_recognized] at hr
    exact compile_or_total cs n e hr hc
  | not_expr c =>
    rw [compile] at hc
    rw [attrs_recognized] at hr
    obtain ⟨m, hm, hn⟩ := except_bind_ok _ _ _ hc
    obtain ⟨b, hb⟩ := eval_total_of_attrs_recognized c m e hr hm
    cases hn
    exact ⟨!b, by cases b <;> simp [compile_not, Node.eval, hb]⟩
  | check_has_type ty =>
    rw [compile] at hc
    cases hc
    exact ⟨_, eval_conditional_call _ _ _ _⟩
  | check_has_key k =>
    rw [compile] at hc
    cases hc
    exact ⟨_, rfl⟩
  | check_tag_str k o v =>
    rw [compile] at hc
    cases hc
    exact ⟨_, rfl⟩
  | check_tag_regex k o r =>
    rw [compile] at hc
    cases hc
    exact ⟨_, rfl⟩
  | check_attr_int a o v =>
    rw [compile] at hc
    simp only [attrs_recognized, decide_eq_true_eq] at hr
    exact check_attr_int_total a o v n e hr hc

/-- Totality for the node built by `compile_and`. -/
theorem compile_and_total (cs : List ExprNode) (n : Node) (e : OSMObject)
    (hr : attrs_recognized_list cs = true) (hc : compile_and cs = .ok n) :
    ∃ b, n.eval e = some b := by
  match cs with
  | [] => simp [compile_and] at hc
  | [_] => simp [compile_and] at hc
  | e1 :: e2 :: f =>
    rw [compile_and] at hc
    simp only [attrs_recognized_list, Bool.and_eq_true] at hr
    obtain ⟨n1, h1, hc⟩ := except_bind_ok _ _ _ hc
    obtain ⟨n2, h2, hc⟩ := except_bind_ok _ _ _ hc
    obtain ⟨b1, hb1⟩ := eval_total_of_attrs_recognized e1 n1 e hr.1 h1
    obtain ⟨b2, hb2⟩ := eval_total_of_attrs_recognized e2 n2 e hr.2.1 h2
    exact accumulate_and_total f (.And n1 n2) n e hr.2.2
      ⟨b1 && b2, by simp [Node.eval, hb1, hb2]⟩ hc

/-- Totality for the fold of `compile_and`. -/
theorem accumulate_and_total (f : List ExprNode) (acc n : Node) (e : OSMObject)
    (hr : attrs_recognized_list f = true) (hacc : ∃ b, acc.eval e = some b)
    (hc : accumulate_and f acc = .ok n) :
    ∃ b, n.eval e = some b := by
  match f with
  | [] =>
    rw [accumulate_and] at hc
    cases hc
    exact hacc
  | c :: f2 =>
    rw [accumulate_and] at hc
    simp only [attrs_recognized_list, Bool.and_eq_true] at hr
    obtain ⟨m, hm, hc⟩ := except_bind_ok _ _ _ hc
    obtain ⟨b, hb⟩ := eval_total_of_attrs_recognized c m e hr.1 hm
    obtain ⟨a, ha⟩ := hacc
    exact accumulate_and_total f2 (.And acc m) n e hr.2
      ⟨a && b, by simp [Node.eval, ha, hb]⟩ hc

/-- Totality for the node built by `compile_or`. -/
theorem compile_or_total (cs : List ExprNode) (n : Node) (e : OSMObject)
    (hr : attrs_recognized_list cs = true) (hc : compile_or cs = .ok n) :
    ∃ b, n.eval e = some b := by
  match cs with
  | [] => simp [compile_or] at hc
  | [_] => simp [compile_or] at hc
  | e1 :: e2 :: f =>
    rw [compile_or] at hc
    simp only [attrs_recognized_list, Bool.and_eq_true] at hr
    obtain ⟨n1, h1, hc⟩ := except_bind_ok _ _ _ hc
    obtain ⟨n2, h2, hc⟩ := except_bind_ok _ _ _ hc
    obtain ⟨b1, hb1⟩ := eval_total_of_attrs_recognized e1 n1 e hr.1 h1
    obtain ⟨b2, hb2⟩ := eval_total_of_attrs_recognized e2 n2 e hr.2.1 h2
    exact accumulate_or_total f (.Or n1 n2) n e hr.2.2
      ⟨b1 || b2, by simp [Node.eval, hb1, hb2]⟩ hc

/-- Totality for the fold of `compile_or`. -/
theorem accumulate_or_total (f : List ExprNode) (acc n : Node) (e : OSMObject)
    (hr : attrs_recognized_list f = true) (hacc : ∃ b, acc.eval e = some b)
    (hc : accumulate_or f acc = .ok n) :
    ∃ b, n.eval e = some b := by
  match f with
  | [] =>
    rw [accumulate_or] at hc
    cases hc
    exact hacc
  | c :: f2 =>
    rw [accumulate_or] at hc
    simp only [attrs_recognized_list, Bool.and_eq_true] at hr
    obtain ⟨m, hm, hc⟩ := except_bind_ok _ _ _ hc
    obtain ⟨b, hb⟩ := eval_total_of_attrs_recognized c m e hr.1 hm
    obtain ⟨a, ha⟩ := hacc
    exact accumulate_or_total f2 (.Or acc m) n e hr.2
      ⟨a || b, by simp [Node.eval, ha, hb]⟩ hc

end

/-! ## Counts and entity types -/

/-- On a natural number of the signed 64-bit range the conversion `int64_t`
is the identity. -/
theorem int64_t_of_nat_lt (n : Nat) (h : n < 2 ^ 63) : int64_t (n : Int) = n := by
  unfold int64_t
  omega

/-- Value of a compiled `CheckAttrInt` node with a recognized attribute and a
recognized operator. -/
theorem evaluate_attr_int (e : OSMObject) (a : AttrName) (o : IntOper) (v : Int) :
    evaluate (.check_attr_int a.name o.name v) e = some (o.holds (a.accessor e) v) := by
  have hc : compile (.check_attr_int a.name o.name v)
      = .ok (.Conditional ⟨o.jcc, .Call (some a.accessor), .Immediate v⟩
          (.Immediate true) (.Immediate false)) := by
    rw [compile]
    exact check_attr_int_known a o v
  simp only [evaluate, hc, eval_conditional_call, jcc_holds]

/-- Value of a compiled `CheckType` node. -/
theorem evaluate_check_type (e : OSMObject) (t : item_type) :
    evaluate (.check_has_type t) e = some (decide (e.type = t)) := by
  have hc : compile (.check_has_type t) = .ok (check_object_type t) := by
    rw [compile]
    rfl
  have hinj : (JccType.JE.holds (detail.get_type e) t.toInt) = decide (e.type = t) := by
    cases h1 : e.type <;> cases t <;> simp [JccType.holds, detail.get_type, h1, item_type.toInt]
  simp only [evaluate, hc, check_object_type, eval_conditional_call, hinj]

/-- The node count of a way with fewer than `2^63` nodes is its number of
nodes; the node count of any other entity is zero. -/
theorem get_count_nodes_eq (e : OSMObject) :
    (e.type ≠ .way → detail.get_count_nodes e = 0)
      ∧ (e.type = .way → e.nodes.length < 2 ^ 63 →
          detail.get_count_nodes e = e.nodes.length) := by
  constructor
  · intro h
    simp [detail.get_count_nodes, h]
  · intro h hlt
    simp [detail.get_count_nodes, h, int64_t_of_nat_lt _ hlt]

/-- C11: `node_count(e)` is zero on every entity that is not a way and the
number of way-nodes on a way (a number below `2^63`, as every size that fits
in memory is); `CheckAttrInt("@nodes", ">", 3)` is true on a way with 5 nodes,
false on every point and false on every relation. -/
theorem node_count_spec (e : OSMObject) :
    (e.type ≠ .way → detail.get_count_nodes e = 0)
      ∧ (e.type = .way → e.nodes.length < 2 ^ 63 →
          detail.get_count_nodes e = e.nodes.length)
      ∧ (e.type = .way → e.nodes.length = 5 →
          evaluate (.check_attr_int "@nodes" ">" 3) e = some true)
      ∧ (e.type = .node → evaluate (.check_attr_int "@nodes" ">" 3) e = some false)
      ∧ (e.type = .relation →
          evaluate (.check_attr_int "@nodes" ">" 3) e = some false) := by
  have hev : evaluate (.check_attr_int "@nodes" ">" 3) e
      = some (decide (detail.get_count_nodes e > 3)) :=
    evaluate_attr_int e .node_count .gt 3
  refine ⟨(get_count_nodes_eq e).1, (get_count_nodes_eq e).2, ?_, ?_, ?_⟩
  · intro h h5
    rw [hev, (get_count_nodes_eq e).2 h (by omega), h5]
    rfl
  · intro h
    rw [hev, (get_count_nodes_eq e).1 (by simp [h])]
    rfl
  · intro h
    rw [hev, (get_count_nodes_eq e).1 (by simp [h])]
    rfl

/-- C13: for every entity `e` and target type `t`, `CheckType(t)` compiles
and evaluates to true exactly when `type(e) = t`; `CheckType(way)` is false on
every point and true on every way. -/
theorem check_type_iff (e : OSMObject) (t : item_type) :
    (∃ b, evaluate (.check_has_type t) e = some b ∧ (b = true ↔ e.type = t))
      ∧ (e.type = .node → evaluate (.check_has_type .way) e = some false)
      ∧ (e.type = .way → evaluate (.check_has_type .way) e = some true) := by
  refine ⟨⟨_, evaluate_check_type e t, by simp⟩, ?_, ?_⟩
  · intro h
    rw [evaluate_check_type, h]
    rfl
  · intro h
    rw [evaluate_check_type, h]
    rfl

/-- C14: the tree `And(CheckType(way), CheckAttrInt("@nodes", ">=", 2))`
compiles; its predicate returns a boolean on every entity, false on every
point, false on a way with 1 node, true on a way with 3 nodes, and in general
true exactly on the ways with at least 2 nodes. -/
theorem way_with_two_nodes_end_to_end :
    ∃ m, compile (.and_expr [.check_has_type .way, .check_attr_int "@nodes" ">=" 2]) = .ok m
      ∧ (∀ e, ∃ b, m.eval e = some b)
      ∧ (∀ e, e.type = .node → m.eval e = some false)
      ∧ (∀ e, e.type = .way → e.nodes.length = 1 → m.eval e = some false)
      ∧ (∀ e, e.type = .way → e.nodes.length = 3 → m.eval e = some true)
      ∧ (∀ e, e.nodes.length < 2 ^ 63 →
          (m.eval e = some true ↔ e.type = .way ∧ 2 ≤ e.nodes.length)) := by
  have hval : ∀ e : OSMObject,
      (Node.And (check_object_type .way)
        (.Conditional ⟨.JGE, .Call (some detail.get_count_nodes), .Immediate 2⟩
          (.Immediate true) (.Immediate false))).eval e
        = some (decide (e.type = .way) && decide (detail.get_count_nodes e ≥ 2)) := by
    intro e
    have h1 : (check_object_type .way).eval e = some (decide (e.type = .way)) := by
      have := evaluate_check_type e .way
      simpa [evaluate, compile, pure, Except.pure] using this
    rw [Node.eval, h1, eval_conditional_call]
    rfl
  refine ⟨Node.And (check_object_type .way)
    (.Conditional ⟨.JGE, .Call (some detail.get_count_nodes), .Immediate 2⟩
      (.Immediate true) (.Immediate false)), rfl, ?_, ?_, ?_, ?_, ?_⟩
  · intro e
    exact ⟨_, hval e⟩
  · intro e h
    rw [hval, h]
    rfl
  · intro e h h1
    rw [hval, (get_count_nodes_eq e).2 h (by omega), h1]
    simp
  · intro e h h3
    rw [hval, (get_count_nodes_eq e).2 h (by omega), h3]
    simp [h]
  · intro e hlt
    rw [hval]
    by_cases h : e.type = .way
    · rw [(get_count_nodes_eq e).2 h hlt]
      simp [h]
    · simp [h]

/-! ## Regular-expression tag comparisons -/

/-- C12: `CheckTagRegex(k, "=~", r)` is true exactly when key `k` is present
and the search of `r` succeeds on the tag's value, `CheckTagRegex(k, "!~", r)`
exactly when key `k` is present and that search fails; on an entity without
key `k` both are false, and on an entity with key `k` exactly one of them is
true. -/
theorem check_tag_regex_spec (e : OSMObject) (k : String) (r : Regex) :
    (∃ b, evaluate (.check_tag_regex k "=~" r) e = some b
        ∧ (b = true ↔ ∃ w, get_value_by_key e.tags k = some w ∧ regex_search w r = true))
      ∧ (∃ b, evaluate (.check_tag_regex k "!~" r) e = some b
        ∧ (b = true ↔ ∃ w, get_value_by_key e.tags k = some w ∧ regex_search w r = false))
      ∧ (detail.has_key e k = false →
          evaluate (.check_tag_regex k "=~" r) e = some false
            ∧ evaluate (.check_tag_regex k "!~" r) e = some false)
      ∧ (detail.has_key e k = true →
          ∃ b, evaluate (.check_tag_regex k "=~" r) e = some b
            ∧ evaluate (.check_tag_regex k "!~" r) e = some (!b)) := by
  have hm : evaluate (.check_tag_regex k "=~" r) e
      = some (detail.check_tag_match e k r) := by
    simp [evaluate, compile, check_tag_regex, first_char, Node.eval, pure, Except.pure]
  have hn : evaluate (.check_tag_regex k "!~" r) e
      = some (detail.check_tag_not_match e k r) := by
    simp [evaluate, compile, check_tag_regex, first_char, Node.eval, pure, Except.pure]
  refine ⟨⟨_, hm, ?_⟩, ⟨_, hn, ?_⟩, ?_, ?_⟩
  · cases hg : get_value_by_key e.tags k <;> simp [detail.check_tag_match, hg]
  · cases hg : get_value_by_key e.tags k <;> simp [detail.check_tag_not_match, hg]
  · intro h
    have hg := (has_key_eq_false_iff e k).1 h
    rw [hm, hn]
    simp [detail.check_tag_match, detail.check_tag_not_match, hg]
  · intro h
    cases hg : get_value_by_key e.tags k with
    | none =>
      rw [(has_key_eq_false_iff e k).2 hg] at h
      cases h
    | some w =>
      refine ⟨_, hm, ?_⟩
      rw [hn]
      simp [detail.check_tag_match, detail.check_tag_not_match, hg]

/-! ## Negation and the comparison operators -/

/-- Value of a compiled `Not` node: the complement of the child's value. -/
theorem evaluate_not (e : OSMObject) (c : ExprNode) :
    evaluate (.not_expr c) e = (evaluate c e).map (fun b => !b) := by
  cases hc : compile c with
  | error err => simp [evaluate, compile, hc, bind, Except.bind]
  | ok n =>
    cases hn : n.eval e with
    | none =>
      simp [evaluate, compile, hc, bind, Except.bind, pure, Except.pure, compile_not,
        Node.eval, hn]
    | some b =>
      cases b <;>
        simp [evaluate, compile, hc, bind, Except.bind, pure, Except.pure, compile_not,
          Node.eval, hn]

/-- Value of a compiled `CheckTagString` node: the accessor selected by the
operator's first character, applied to the entity, the key and the value. -/
theorem evaluate_check_tag_str (e : OSMObject) (k op v : String) :
    evaluate (.check_tag_str k op v) e
      = some ((if first_char op = '!' then detail.check_tag_not_equals
          else detail.check_tag_equals) e k v) := by
  simp [evaluate, compile, check_tag_str, Node.eval, pure, Except.pure]

/-- Value of a compiled `CheckTagRegex` node. -/
theorem evaluate_check_tag_regex (e : OSMObject) (k op : String) (r : Regex) :
    evaluate (.check_tag_regex k op r) e
      = some ((if first_char op = '!' then detail.check_tag_not_match
          else detail.check_tag_match) e k r) := by
  simp [evaluate, compile, check_tag_regex, Node.eval, pure, Except.pure]

/-- C17: `CheckTagString(k, "!=", v)` and `Not(CheckTagString(k, "=", v))`
evaluate to the same boolean on `e` exactly when `e` has key `k`; on an entity
without key `k` the former is false and the latter true. Key `k` is present
exactly when one and only one of `tag_equals`, `tag_not_equals` is true, and
the two are never both true. -/
theorem not_equals_versus_negated_equals (e : OSMObject) (k v : String) :
    (evaluate (.check_tag_str k "!=" v) e
        = evaluate (.not_expr (.check_tag_str k "=" v)) e
        ↔ detail.has_key e k = true)
      ∧ (detail.has_key e k = false →
          evaluate (.check_tag_str k "!=" v) e = some false
            ∧ evaluate (.not_expr (.check_tag_str k "=" v)) e = some true)
      ∧ (detail.has_key e k = true
          ↔ detail.check_tag_equals e k v ≠ detail.check_tag_not_equals e k v)
      ∧ ¬ (detail.check_tag_equals e k v = true
            ∧ detail.check_tag_not_equals e k v = true) := by
  have hne : evaluate (.check_tag_str k "!=" v) e
      = some (detail.check_tag_not_equals e k v) := by
    rw [evaluate_check_tag_str]
    rfl
  have heq : evaluate (.not_expr (.check_tag_str k "=" v)) e
      = some (!detail.check_tag_equals e k v) := by
    rw [evaluate_not, evaluate_check_tag_str]
    rfl
  cases hg : get_value_by_key e.tags k with
  | none =>
    have hk : detail.has_key e k = false := (has_key_eq_false_iff e k).2 hg
    have h1 : detail.check_tag_equals e k v = false := by
      simp [detail.check_tag_equals, hg]
    have h2 : detail.check_tag_not_equals e k v = false := by
      simp [detail.check_tag_not_equals, hg]
    rw [hne, heq, hk, h1, h2]
    simp
  | some w =>
    have hk : detail.has_key e k = true := by
      cases hh : detail.has_key e k with
      | true => rfl
      | false =>
        rw [(has_key_eq_false_iff e k).1 hh] at hg
        cases hg
    have h1 : detail.check_tag_not_equals e k v = !detail.check_tag_equals e k v := by
      simp [detail.check_tag_equals, detail.check_tag_not_equals, hg, bne]
    rw [hne, heq, hk, h1]
    cases detail.check_tag_equals e k v <;> simp

/-- On integers `x ≤ v` is the complement of `v < x`. -/
theorem decide_le_eq_not_lt (x v : Int) : decide (x ≤ v) = !decide (v < x) := by
  by_cases h : x ≤ v
  · have h2 : ¬ v < x := by omega
    simp [h, h2]
  · have h2 : v < x := by omega
    simp [h, h2]

/-- C18: for every entity, recognized attribute `a` and operand `v`,
`CheckAttrInt(a, "!=", v)` evaluates to the same boolean as
`Not(CheckAttrInt(a, "=", v))`, `"<="` to the same as the negation of `">"`
and `">="` to the same as the negation of `"<"`; this includes the node count
and the member count of an entity of another type, which are zero. -/
theorem attr_int_operators_complement (e : OSMObject) (a : AttrName) (v : Int) :
    evaluate (.check_attr_int a.name "!=" v) e
        = evaluate (.not_expr (.check_attr_int a.name "=" v)) e
      ∧ evaluate (.check_attr_int a.name "<=" v) e
        = evaluate (.not_expr (.check_attr_int a.name ">" v)) e
      ∧ evaluate (.check_attr_int a.name ">=" v) e
        = evaluate (.not_expr (.check_attr_int a.name "<" v)) e
      ∧ (∃ b, evaluate (.check_attr_int a.name "=" v) e = some b)
      ∧ (e.type ≠ .way → AttrName.node_count.accessor e = 0)
      ∧ (e.type ≠ .relation → AttrName.member_count.accessor e = 0) := by
  have h := fun o => evaluate_attr_int e a o v
  have heq := h .eq
  have hne := h .ne
  have hgt := h .gt
  have hge := h .ge
  have hlt := h .lt
  have hle := h .le
  simp only [IntOper.name] at heq hne hgt hge hlt hle
  refine ⟨?_, ?_, ?_, ⟨_, heq⟩, ?_, ?_⟩
  · rw [evaluate_not, heq, hne]
    simp [IntOper.holds]
  · rw [evaluate_not, hgt, hle]
    simp only [IntOper.holds, Option.map_some', gt_iff_lt, decide_le_eq_not_lt]
  · rw [evaluate_not, hlt, hge]
    simp only [IntOper.holds, Option.map_some', ge_iff_le, decide_le_eq_not_lt]
  · intro ht
    simp [AttrName.accessor, detail.get_count_nodes, ht]
  · intro ht
    simp [AttrName.accessor, detail.get_count_members, ht]

/-- C19: lowering a `CheckTagString` or `CheckTagRegex` node never fails and
reads only the first character of the operator: the negated accessor is
selected exactly when that character is `!`, the positive accessor for every
other operator string. Operators with the same first character compile to the
same node, and an operator not starting with `!` behaves as `"="`
(respectively `"=~"`). -/
theorem check_tag_lowering_first_char (k op v : String) (r : Regex) :
    compile (.check_tag_str k op v)
        = .ok (.Call_key_str (some (if first_char op = '!' then detail.check_tag_not_equals
            else detail.check_tag_equals)) k v)
      ∧ compile (.check_tag_regex k op r)
        = .ok (.Call_key_regex (some (if first_char op = '!' then detail.check_tag_not_match
            else detail.check_tag_match)) k r)
      ∧ (∀ op2, first_char op2 = first_char op →
          compile (.check_tag_str k op2 v) = compile (.check_tag_str k op v)
            ∧ compile (.check_tag_regex k op2 r) = compile (.check_tag_regex k op r)
            ∧ ∀ e, evaluate (.check_tag_str k op2 v) e = evaluate (.check_tag_str k op v) e
              ∧ evaluate (.check_tag_regex k op2 r) e = evaluate (.check_tag_regex k op r) e)
      ∧ (first_char op ≠ '!' → ∀ e,
          evaluate (.check_tag_str k op v) e = some (detail.check_tag_equals e k v)
            ∧ evaluate (.check_tag_str k op v) e = evaluate (.check_tag_str k "=" v) e
            ∧ evaluate (.check_tag_regex k op r) e = some (detail.check_tag_match e k r)
            ∧ evaluate (.check_tag_regex k op r) e = evaluate (.check_tag_regex k "=~" r) e)
      ∧ (first_char op = '!' → ∀ e,
          evaluate (.check_tag_str k op v) e = some (detail.check_tag_not_equals e k v)
            ∧ evaluate (.check_tag_regex k op r) e
              = some (detail.check_tag_not_match e k r)) := by
  have hs : ∀ o, compile (.check_tag_str k o v)
      = .ok (.Call_key_str (some (if first_char o = '!' then detail.check_tag_not_equals
          else detail.check_tag_equals)) k v) := by
    intro o
    rw [compile]
    rfl
  have hr : ∀ o, compile (.check_tag_regex k o r)
      = .ok (.Call_key_regex (some (if first_char o = '!' then detail.check_tag_not_match
          else detail.check_tag_match)) k r) := by
    intro o
    rw [compile]
    rfl
  have heq : first_char "=" ≠ '!' := by decide
  have hre : first_char "=~" ≠ '!' := by decide
  refine ⟨hs op, hr op, ?_, ?_, ?_⟩
  · intro op2 h2
    refine ⟨by rw [hs, hs, h2], by rw [hr, hr, h2], fun e => ?_⟩
    simp only [evaluate_check_tag_str, evaluate_check_tag_regex, h2, and_self]
  · intro hne e
    simp only [evaluate_check_tag_str, evaluate_check_tag_regex, hne, heq, hre, if_false,
      and_self]
  · intro hb e
    simp only [evaluate_check_tag_str, evaluate_check_tag_regex, hb, if_true, and_self]

/-! ## Evaluation of the children of `And` -/

/-- The calls of a left-nested chain of `And` nodes are those of all its
operands. -/
theorem calls_foldl_And (e : OSMObject) (ns : List Node) (acc : Node) :
    (ns.foldl Node.And acc).calls e
      = acc.calls e ++ (ns.map (fun n => n.calls e)).flatten := by
  induction ns generalizing acc with
  | nil => simp
  | cons n ns ih =>
    rw [List.foldl_cons, ih]
    simp [Node.calls, List.append_assoc]

/-- The calls of compiled children are the ones `evaluate_calls` lists. -/
theorem calls_of_compiled (cs : List ExprNode) (ns : List Node) (e : OSMObject)
    (h : List.Forall₂ (fun c n => compile c = .ok n) cs ns) :
    ns.map (fun n => n.calls e) = cs.map (fun c => evaluate_calls c e) := by
  induction h with
  | nil => rfl
  | cons hc _ ih => simp [ih, evaluate_calls, hc]

/-- C15 (as amended): a compiled `And` node does not short-circuit. For every
entity `e` and every `And` node with at least two children that all compile,
a run of the compiled predicate evaluates every child, whatever the results
of the earlier ones: its accessor calls are those of all the children. -/
theorem compile_and_evaluates_all_children (e : OSMObject) (cs : List ExprNode)
    (hlen : 2 ≤ cs.length) (hc : ∀ c ∈ cs, ∃ n, compile c = .ok n) :
    ∃ m, compile (.and_expr cs) = .ok m
      ∧ m.calls e = children_calls e cs
      ∧ evaluate_calls (.and_expr cs) e = children_calls e cs := by
  obtain ⟨ns, hns, _⟩ := compiled_children cs hc
  have hcalls := calls_of_compiled cs ns e hns
  cases hns with
  | nil => simp at hlen
  | @cons c1 n1 cs1 ns1 h1 hrest =>
    cases hrest with
    | nil => simp at hlen
    | @cons c2 n2 f rest h2 hf =>
      have hcomp : compile (.and_expr (c1 :: c2 :: f))
          = .ok (rest.foldl Node.And (.And n1 n2)) := by
        simp [compile, compile_and, h1, h2, accumulate_and_ok f rest _ hf, bind, Except.bind]
      have hval : (rest.foldl Node.And (.And n1 n2)).calls e
          = children_calls e (c1 :: c2 :: f) := by
        rw [calls_foldl_And, children_calls, ← hcalls]
        simp [Node.calls, List.append_assoc]
      exact ⟨_, hcomp, hval, by rw [evaluate_calls, hcomp]; exact hval⟩

/-- Witness of C15 (as amended): the `And` node over `example_children` on a
point. -/
theorem compile_and_evaluates_all_children_witness :
    2 ≤ example_children.length
      ∧ (∀ c ∈ example_children, ∃ n, compile c = .ok n)
      ∧ ∃ m, compile (.and_expr example_children) = .ok m
        ∧ m.calls example_point = children_calls example_point example_children
        ∧ evaluate_calls (.and_expr example_children) example_point
            = children_calls example_point example_children :=
  ⟨by decide, example_children_compile,
    compile_and_evaluates_all_children example_point example_children (by decide)
      example_children_compile⟩

/-- C15 (counterexample): on the point `example_point` the first child of
`And(CheckType(way), CheckHasKey("name"))` evaluates to false, so a
short-circuiting run would evaluate the first child only; the compiled
predicate returns false and still calls the accessor of the second child, and
its calls are not those of the children up to the first false one. -/
theorem compile_and_not_short_circuit :
    evaluate (.check_has_type .way) example_point = some false
      ∧ short_circuit_children example_point
          [.check_has_type .way, .check_has_key "name"] = [.check_has_type .way]
      ∧ evaluate (.and_expr [.check_has_type .way, .check_has_key "name"]) example_point
          = some false
      ∧ evaluate_calls (.and_expr [.check_has_type .way, .check_has_key "name"])
          example_point
          = [.int (some detail.get_type), .key (some detail.has_key) "name"]
      ∧ ¬ (evaluate_calls (.and_expr [.check_has_type .way, .check_has_key "name"])
            example_point
          = children_calls example_point
              (short_circuit_children example_point
                [.check_has_type .way, .check_has_key "name"])) := by
  have h1 : evaluate (.check_has_type .way) example_point = some false := by decide
  have h2 : short_circuit_children example_point
      [.check_has_type .way, .check_has_key "name"] = [.check_has_type .way] := by
    simp [short_circuit_children, h1]
  refine ⟨h1, h2, by decide, rfl, ?_⟩
  rw [h2]
  intro h
  have hl := congrArg List.length h
  revert hl
  decide

/-! ## Propagation of compilation failures -/

/-- A bind in `Except` whose first step fails, fails. -/
theorem except_bind_error {α β ε : Type} (x : Except ε α) (g : α → Except ε β) (err : ε)
    (h : x = .error err) : x >>= g = .error err := by
  rw [h]
  rfl

mutual

/-- A tree that contains an `And` or `Or` node with fewer than two children
does not compile. -/
theorem compile_fails_of_short_node (t : ExprNode) (h : has_short_node t = true) :
    ∃ err, compile t = .error err := by
  cases t with
  | and_expr cs =>
    rw [compile]
    rw [has_short_node] at h
    exact compile_and_fails cs h
  | or_expr cs =>
    rw [compile]
    rw [has_short_node] at h
    exact compile_or_fails cs h
  | not_expr c =>
    rw [has_short_node] at h
    obtain ⟨err, herr⟩ := compile_fails_of_short_node c h
    exact ⟨err, by rw [compile]; exact except_bind_error _ _ _ herr⟩
  | check_has_type ty => simp [has_short_node] at h
  | check_has_key k => simp [has_short_node] at h
  | check_tag_str k o v => simp [has_short_node] at h
  | check_tag_regex k o r => simp [has_short_node] at h
  | check_attr_int a o v => simp [has_short_node] at h

/-- Failure of `compile_and` on too few children or on a child that does not
compile. -/
theorem compile_and_fails (cs : List ExprNode)
    (h : (decide (cs.length < 2) || has_short_node_list cs) = true) :
    ∃ err, compile_and cs = .error err := by
  match cs with
  | [] => exact ⟨.assert_children_size, by simp [compile_and]⟩
  | [_] => exact ⟨.assert_children_size, by simp [compile_and]⟩
  | e1 :: e2 :: f =>
    rw [compile_and]
    cases h1 : compile e1 with
    | error err => exact ⟨err, rfl⟩
    | ok n1 =>
      cases h2 : compile e2 with
      | error err => exact ⟨err, rfl⟩
      | ok n2 =>
        have hf : has_short_node_list f = true := by
          simp only [List.length_cons, has_short_node_list, Bool.or_eq_true,
            decide_eq_true_eq] at h
          rcases h with h | h | h | h
          · omega
          · obtain ⟨err, herr⟩ := compile_fails_of_short_node e1 h
            rw [h1] at herr
            cases herr
          · obtain ⟨err, herr⟩ := compile_fails_of_short_node e2 h
            rw [h2] at herr
            cases herr
          · exact h
        exact accumulate_and_fails f (.And n1 n2) hf

/-- Failure of the fold of `compile_and` on a child that does not compile. -/
theorem accumulate_and_fails (f : List ExprNode) (acc : Node)
    (h : has_short_node_list f = true) :
    ∃ err, accumulate_and f acc = .error err := by
  match f with
  | [] => simp [has_short_node_list] at h
  | c :: f2 =>
    rw [accumulate_and]
    cases h1 : compile c with
    | error err => exact ⟨err, rfl⟩
    | ok n1 =>
      have hf : has_short_node_list f2 = true := by
        simp only [has_short_node_list, Bool.or_eq_true] at h
        rcases h with h | h
        · obtain ⟨err, herr⟩ := compile_fails_of_short_node c h
          rw [h1] at herr
          cases herr
        · exact h
      exact accumulate_and_fails f2 (.And acc n1) hf

/-- Failure of `compile_or` on too few children or on a child that does not
compile. -/
theorem compile_or_fails (cs : List ExprNode)
    (h : (decide (cs.length < 2) || has_short_node_list cs) = true) :
    ∃ err, compile_or cs = .error err := by
  match cs with
  | [] => exact ⟨.assert_children_size, by simp [compile_or]⟩
  | [_] => exact ⟨.assert_children_size, by simp [compile_or]⟩
  | e1 :: e2 :: f =>
    rw [compile_or]
    cases h1 : compile e1 with
    | error err => exact ⟨err, rfl⟩
    | ok n1 =>
      cases h2 : compile e2 with
      | error err => exact ⟨err, rfl⟩
      | ok n2 =>
        have hf : has_short_node_list f = true := by
          simp only [List.length_cons, has_short_node_list, Bool.or_eq_true,
            decide_eq_true_eq] at h
          rcases h with h | h | h | h
          · omega
          · obtain ⟨err, herr⟩ := compile_fails_of_short_node e1 h
            rw [h1] at herr
            cases herr
          · obtain ⟨err, herr⟩ := compile_fails_of_short_node e2 h
            rw [h2] at herr
            cases herr
          · exact h
        exact accumulate_or_fails f (.Or n1 n2) hf

/-- Failure of the fold of `compile_or` on a child that does not compile. -/
theorem accumulate_or_fails (f : List ExprNode) (acc : Node)
    (h : has_short_node_list f = true) :
    ∃ err, accumulate_or f acc = .error err := by
  match f with
  | [] => simp [has_short_node_list] at h
  | c :: f2 =>
    rw [accumulate_or]
    cases h1 : compile c with
    | error err => exact ⟨err, rfl⟩
    | ok n1 =>
      have hf : has_short_node_list f2 = true := by
        simp only [has_short_node_list, Bool.or_eq_true] at h
        rcases h with h | h
        · obtain ⟨err, herr⟩ := compile_fails_of_short_node c h
          rw [h1] at herr
          cases herr
        · exact h
      exact accumulate_or_fails f2 (.Or acc n1) hf

end

/-- C16: compilation errors propagate from any depth. A tree that contains,
at the root or anywhere below it under any nesting of `And`, `Or` and `Not`,
an `And` or `Or` node with fewer than two children does not compile: `compile`
returns an error and no predicate, so nothing can be evaluated on any
entity. -/
theorem compile_error_propagates (t : ExprNode) (h : has_short_node t = true) :
    (∃ err, compile t = .error err)
      ∧ (∀ n, compile t ≠ .ok n)
      ∧ (∀ e, evaluate t e = none) := by
  obtain ⟨err, herr⟩ := compile_fails_of_short_node t h
  refine ⟨⟨err, herr⟩, ?_, ?_⟩
  · intro n hn
    rw [herr] at hn
    cases hn
  · intro e
    simp [evaluate, herr]

/-- An example tree with a one-child `And` node three levels below the
root. -/
theorem compile_error_propagates_witness :
    has_short_node
        (.or_expr [.check_has_key "name",
          .not_expr (.and_expr [.check_has_type .way,
            .and_expr [.check_has_key "highway"]])]) = true
      ∧ (∃ err, compile
          (.or_expr [.check_has_key "name",
            .not_expr (.and_expr [.check_has_type .way,
              .and_expr [.check_has_key "highway"]])]) = .error err)
      ∧ (∀ n, compile
          (.or_expr [.check_has_key "name",
            .not_expr (.and_expr [.check_has_type .way,
              .and_expr [.check_has_key "highway"]])]) ≠ .ok n)
      ∧ (∀ e, evaluate
          (.or_expr [.check_has_key "name",
            .not_expr (.and_expr [.check_has_type .way,
              .and_expr [.check_has_key "highway"]])]) e = none) :=
  ⟨by decide, compile_error_propagates _ (by decide)⟩

end OsmiumFilter
